import Mathlib

/-!
Verification of the lint-on-edit pipeline of an SV language server
(`src/backend.rs`) against its natural-language specification.

The document text handled by `lint`, `get_position` and `get_line_end` is a
Rust `&str`, i.e. a UTF-8 byte sequence indexed by byte offsets; it is
modelled as `List Nat` (one entry per byte).  The external collaborators
(`sv_parser::parse_sv_str`, `svlint::linter::Linter::check`,
`enquote::unescape`, the filesystem, the toml deserializer) are modelled at
their interface boundary: either as function parameters or, where the spec
pins their behaviour, as explicit model definitions marked as such.
-/

/-- One byte of a UTF-8 continuation (`0x80..0xBF`). -/
def contB (b : Nat) : Bool := 128 ≤ b && b < 192

/-- Model of Rust `str::is_char_boundary` on a byte sequence: offset `0` and
the total length are boundaries, an interior offset is a boundary iff its
byte is not a continuation byte, and offsets past the end are not. -/
def isCharBoundary (s : List Nat) (p : Nat) : Bool :=
  if p = 0 then true
  else if p = s.length then true
  else if p < s.length then !contB (s.getD p 0)
  else false

/-- Model of the Rust expression `s.get(p..p+1)`: the one-byte slice at `p`
if both `p` and `p+1` are char boundaries and `p+1` is in range, else none.
The slice is represented by its single byte (the slice equals `"\n"` iff
this byte is 10). -/
def sliceGet (s : List Nat) (p : Nat) : Option Nat :=
  if p + 1 ≤ s.length && isCharBoundary s p && isCharBoundary s (p + 1) then
    some (s.getD p 0)
  else none

/-- `get_position` from `src/backend.rs` (lines 286-304): scan the bytes
before `pos`; a one-byte slice equal to `"\n"` advances the line and resets
the column, any other slice and any failed slice lookup (invalid char
boundary) advances the column by one.  The source loops `p` upward from 0
while `p < pos`; this recursion processes the same offsets in the same
order. -/
def get_position (s : List Nat) : Nat → Nat × Nat
  | 0 => (0, 0)
  | k + 1 =>
    let lc := get_position s k
    match sliceGet s k with
    | some 10 => (lc.1 + 1, 0)
    | some _ => (lc.1, lc.2 + 1)
    | none => (lc.1, lc.2 + 1)

/-- The `while p < s.len()` loop of `get_line_end`, written with the number
of remaining in-range offsets (`s.length - p`) as structural fuel: while
offsets remain, a one-byte slice equal to `"\n"` stops the loop, anything
else (including a failed slice lookup) advances `p`. -/
def lineEndLoop (s : List Nat) : Nat → Nat → Nat
  | p, 0 => p
  | p, fuel + 1 =>
    if sliceGet s p = some 10 then p else lineEndLoop s (p + 1) fuel

/-- `get_line_end` from `src/backend.rs` (lines 306-317): starting at `pos`,
step forward while inside the text until a one-byte slice equal to `"\n"` is
found; return that offset, or the first offset at or past the end of the
text.  The loop runs for exactly `s.length - pos` iterations unless it
breaks, so the fuel value makes `lineEndLoop` compute the same offset the
source's `while p < s.len()` loop returns. -/
def get_line_end (s : List Nat) (pos : Nat) : Nat :=
  lineEndLoop s pos (s.length - pos)

/-- A byte sequence that is well-formed UTF-8 (the leading-byte ranges are
slightly permissive, which only widens the set of sequences the theorems
cover; every Rust `&str` is included). -/
inductive ValidUTF8 : List Nat → Prop
  | nil : ValidUTF8 []
  | one {b : Nat} {rest : List Nat} (hb : b < 128) (h : ValidUTF8 rest) :
      ValidUTF8 (b :: rest)
  | two {b c : Nat} {rest : List Nat} (hb1 : 192 ≤ b) (hb2 : b < 224)
      (hc : contB c = true) (h : ValidUTF8 rest) : ValidUTF8 (b :: c :: rest)
  | three {b c d : Nat} {rest : List Nat} (hb1 : 224 ≤ b) (hb2 : b < 240)
      (hc : contB c = true) (hd : contB d = true) (h : ValidUTF8 rest) :
      ValidUTF8 (b :: c :: d :: rest)
  | four {b c d e : Nat} {rest : List Nat} (hb1 : 240 ≤ b) (hb2 : b < 248)
      (hc : contB c = true) (hd : contB d = true) (he : contB e = true)
      (h : ValidUTF8 rest) : ValidUTF8 (b :: c :: d :: e :: rest)

/-- Severity of an LSP diagnostic (`tower_lsp::lsp_types::DiagnosticSeverity`);
only the two variants used by `lint` are modelled. -/
inductive DiagnosticSeverity where
  | error
  | warning
deriving DecidableEq

/-- `tower_lsp::lsp_types::NumberOrString`. -/
inductive NumberOrString where
  | num (n : Int)
  | str (s : String)
deriving DecidableEq

/-- An LSP position (`Position::new(line, character)`); both fields are
zero-based. -/
structure Position where
  line : Nat
  character : Nat
deriving DecidableEq

/-- An LSP range; `endPos` models the `end` field. -/
structure Range where
  start : Position
  endPos : Position
deriving DecidableEq

/-- An LSP diagnostic.  The source constructs every diagnostic through
`Diagnostic::new(range, severity, code, source, message, None, None)`; the
two trailing `None` arguments (`related_information`, `tags`) are constant
and omitted from the model. -/
structure Diagnostic where
  range : Range
  severity : Option DiagnosticSeverity
  code : Option NumberOrString
  source : Option String
  message : String
deriving DecidableEq

/-- `Diagnostic::new` restricted to the five varying arguments. -/
def Diagnostic.new (range : Range) (severity : Option DiagnosticSeverity)
    (code : Option NumberOrString) (source : Option String)
    (message : String) : Diagnostic :=
  ⟨range, severity, code, source, message⟩

/-- One element of the stream produced by `svlint`'s `linter.check` (a
`LintFailed`): the fields of `failed` read by `lint` (lines 87-104).
Paths are modelled as strings; the primary in-memory buffer carries the
empty path `""` (`PathBuf::from("")`). -/
structure Failed where
  path : String
  beg : Nat
  len : Nat
  name : String
  hint : String
deriving DecidableEq

/-- `sv_parser::Error` as matched by `lint` (line 111): the `Parse` variant
with its optional `(path, byte-offset)` payload; every other variant is
collapsed into `other`, which `lint` ignores. -/
inductive SvParseError where
  | parse (loc : Option (String × Nat))
  | other
deriving DecidableEq

/-- Observable outcome of `parse_sv_str` combined with the svlint check
loop: on success the source walks the syntax tree's events and calls
`linter.check` on each, producing an ordered stream of `Failed` values
(carried by `ok`); on failure it gets an `sv_parser::Error`. -/
inductive ParseOutcome where
  | ok (failures : List Failed)
  | err (e : SvParseError)
deriving DecidableEq

/-- `sv_parser::DefineText::new(text, origin)`; `lint` always passes
`None` for the origin. -/
structure DefineText where
  text : String
  origin : Option String
deriving DecidableEq

/-- `DefineText::new`. -/
def DefineText.new (text : String) (origin : Option String) : DefineText :=
  ⟨text, origin⟩

/-- `sv_parser::Define::new(identifier, arguments, text)`; `lint` always
passes an empty argument list. -/
structure Define where
  identifier : String
  arguments : List String
  text : Option DefineText
deriving DecidableEq

/-- `Define::new`. -/
def Define.new (identifier : String) (arguments : List String)
    (text : Option DefineText) : Define :=
  ⟨identifier, arguments, text⟩

/-- Modelled from the spec: `crate::config::Config` lives in
`src/config.rs`, which is not among the provided sources; only its fields
read by `backend.rs` (`verilog.include_paths`, `verilog.defines`,
`option.linter`) and its `Default` (all options at their defaults,
rule-checking enabled) are modelled, following the spec's data model. -/
structure ConfigVerilog where
  include_paths : List String
  defines : List String
deriving DecidableEq

/-- Modelled from the spec: the `option` table of the primary settings
file; `linter` enables rule-checking. -/
structure ConfigOption where
  linter : Bool
deriving DecidableEq

/-- Modelled from the spec: the primary settings structure. -/
structure Config where
  verilog : ConfigVerilog
  option : ConfigOption
deriving DecidableEq

/-- Modelled from the spec: the documented default configuration — no
include paths, no defines, rule-checking enabled. -/
def Config.default : Config := ⟨⟨[], []⟩, ⟨true⟩⟩

/-- The rule settings consumed by the external rule checker
(`svlint::config::Config`): an opaque table from this service's point of
view; only the construction provenance used by `backend.rs` is modelled. -/
structure LintConfig where
  enable_all_rules : Bool
deriving DecidableEq

/-- `svlint::config::Config::new()`. -/
def LintConfig.new : LintConfig := ⟨false⟩

/-- `svlint::config::Config::enable_all()`. -/
def LintConfig.enable_all (c : LintConfig) : LintConfig :=
  { c with enable_all_rules := true }

/-- The external analysis-engine handle (`svlint::linter::Linter`),
modelled by the configuration it was built from; its `check` behaviour is
represented by the `ParseOutcome.ok` stream. -/
structure Linter where
  config : LintConfig
deriving DecidableEq

/-- `Linter::new`. -/
def Linter.new (c : LintConfig) : Linter := ⟨c⟩

/-- A parsed root URI; `to_file_path` models the result of
`Url::to_file_path()` (`none` when the conversion fails). -/
structure Url where
  to_file_path : Option String
deriving DecidableEq

/-- The shared state of `Backend` (minus the transport-layer `client`):
`root_uri`, `config` and `linter` are all `None` until `initialize` runs. -/
structure Backend where
  root_uri : Option Url
  config : Option Config
  linter : Option Linter
deriving DecidableEq

/-- The single-character escapes recognised when a define value is
unescaped; any other escape sequence is invalid. -/
def escapeChar : Char → Option Char
  | 'n' => some '\n'
  | 'r' => some '\r'
  | 't' => some '\t'
  | '\\' => some '\\'
  | '\'' => some '\''
  | '"' => some '"'
  | _ => none

/-- Modelled from the spec: `enquote::unescape(x, None)` is an external
collaborator (the `enquote` crate, not part of this repository); per the
spec a define value "is unescaped as a quoted literal (invalid escape
sequences drop the value)".  Plain characters are copied, a backslash
introduces an escape sequence, and an unrecognised or unterminated escape
fails. -/
def unescape : List Char → Option (List Char)
  | [] => some []
  | '\\' :: [] => none
  | '\\' :: e :: rest =>
    match escapeChar e with
    | some ec => (unescape rest).map (fun t => ec :: t)
    | none => none
  | c :: rest => (unescape rest).map (fun t => c :: t)

/-- Rust `s.splitn(2, '=')` as consumed by `lint` (lines 56-58): the part
before the first `=`, and — when a `=` exists — everything after it. -/
def splitnEq : List Char → List Char × Option (List Char)
  | [] => ([], none)
  | c :: rest =>
    if c = '=' then ([], some rest)
    else
      let r := splitnEq rest
      (c :: r.1, r.2)

/-- The body of the defines loop of `lint` (lines 55-68): split the define
string on the first `=`; the left part is the identifier; a right part is
unescaped (a failed unescape keeps the identifier but drops the text); the
resulting `Define` carries the identifier, no arguments, and the optional
text. -/
def defineOf (s : String) : String × Define :=
  let parts := splitnEq s.data
  let ident := String.mk parts.1
  let text : Option DefineText :=
    match parts.2 with
    | some x =>
      match unescape x with
      | some w => some (DefineText.new (String.mk w) none)
      | none => none
    | none => none
  (ident, Define.new ident [] text)

/-- Rust `PathBuf::push` on string paths: pushing an absolute path replaces
the base, otherwise the component is appended below the base. -/
def pathPush (base p : String) : String :=
  if p.data.head? = some '/' then p else base ++ "/" ++ p

/-- `HashMap::insert` on an association-list model of the defines map:
replaces any earlier binding of the key. -/
def insertAssoc (m : List (String × Option Define)) (k : String)
    (v : Option Define) : List (String × Option Define) :=
  (m.filter (fun kv => kv.1 ≠ k)) ++ [(k, v)]

/-- The diagnostic `lint` builds for one rule violation (lines 92-104):
Warning severity, the rule name as code, `"svls"` as source, the hint as
message, and a single-line range from the position of `failed.beg` whose
end column is offset by `failed.len`. -/
def ruleDiag (s : List Nat) (f : Failed) : Diagnostic :=
  let lc := get_position s f.beg
  Diagnostic.new ⟨⟨lc.1, lc.2⟩, ⟨lc.1, lc.2 + f.len⟩⟩
    (some DiagnosticSeverity.warning) (some (NumberOrString.str f.name))
    (some "svls") f.hint

/-- The diagnostic `lint` builds for a parse failure in the primary buffer
(lines 113-124): Error severity, no code, `"svls"` as source, the constant
message `"parse error"`, and a range from the position of `pos` to the end
of its line. -/
def parseDiag (s : List Nat) (pos : Nat) : Diagnostic :=
  let lc := get_position s pos
  let line_end := get_line_end s pos
  let len := line_end - pos
  Diagnostic.new ⟨⟨lc.1, lc.2⟩, ⟨lc.1, lc.2 + len⟩⟩
    (some DiagnosticSeverity.error) none (some "svls") "parse error"

/-- The inner loop of `lint`'s success branch (lines 86-106): walk the
failure stream in order; a failure whose path differs from the primary
buffer's empty path is skipped (`continue`), any other failure is pushed
as a rule diagnostic. -/
def ruleDiags (s : List Nat) : List Failed → List Diagnostic
  | [] => []
  | f :: rest =>
    if f.path ≠ "" then ruleDiags s rest
    else ruleDiag s f :: ruleDiags s rest

/-- The `match parsed` block of `lint` (lines 82-128).  On success the rule
checks run only when a linter is present (`if let Some(ref mut linter)`).
On failure, only `Error::Parse(Some((path, pos)))` with the primary
buffer's empty path produces (exactly one) diagnostic. -/
def lintMatch (st : Backend) (s : List Nat) (parsed : ParseOutcome) :
    List Diagnostic :=
  match parsed with
  | ParseOutcome.ok failures =>
    match st.linter with
    | some _ => ruleDiags s failures
    | none => []
  | ParseOutcome.err x =>
    match x with
    | SvParseError.parse (some (path, pos)) =>
      if path = "" then [parseDiag s pos] else []
    | _ => []

/-- `Backend::lint` (lines 32-130).  The root URI degrades to the empty
path when absent or unconvertible (lines 35-44); include paths are resolved
against it and the defines map is built from the configuration when one is
present (lines 46-70); the external `parse_sv_str` (a parameter, since the
parser and rule checker are external collaborators) is invoked on the text
with the empty primary-buffer path (lines 74-81), and its outcome is
translated by `lintMatch`. -/
def lint (st : Backend)
    (parse_sv_str : List Nat → List String → List (String × Option Define) → ParseOutcome)
    (s : List Nat) : List Diagnostic :=
  let root_uri : String :=
    match st.root_uri with
    | some u =>
      match u.to_file_path with
      | some p => p
      | none => ""
    | none => ""
  let include_paths : List String :=
    match st.config with
    | some config => config.verilog.include_paths.map (fun p => pathPush root_uri p)
    | none => []
  let defines : List (String × Option Define) :=
    match st.config with
    | some config =>
      config.verilog.defines.foldl
        (fun m d =>
          let idDef := defineOf d
          insertAssoc m idDef.1 (some idDef.2)) []
    | none => []
  lintMatch st s (parse_sv_str s include_paths defines)

/-- The `for dir in current.ancestors()` loop of `search_config`
(lines 230-235): return the first `dir.join(config)` that exists. -/
def searchAncestors : List String → (String → Bool) → String → Option String
  | [], _, _ => none
  | dir :: rest, fsExists, config =>
    let candidate := dir ++ "/" ++ config
    if fsExists candidate then some candidate else searchAncestors rest fsExists config

/-- `search_config` (lines 228-240).  `env::current_dir()` and
`Path::exists` are external: the ancestor chain of the current directory
(`current.ancestors()`: the directory itself first, then each successive
parent up to the filesystem root) and the existence test are parameters;
`currentAncestors = none` models `env::current_dir()` failing. -/
def search_config (currentAncestors : Option (List String))
    (fsExists : String → Bool) (config : String) : Option String :=
  match currentAncestors with
  | some ancestors => searchAncestors ancestors fsExists config
  | none => none

/-- `generate_config` (lines 242-262), with the filesystem read and the
toml deserializer as parameters (`none` models `Err`).  No path yields the
default configuration; a failed read or parse yields the corresponding
message naming the offending path. -/
def generate_config (config : Option String)
    (read_to_string : String → Option String)
    (toml_from_str : String → Option Config) : Except String Config :=
  match config with
  | some config =>
    match read_to_string config with
    | some s =>
      match toml_from_str s with
      | some cfg => Except.ok cfg
      | none => Except.error ("Failed to parse " ++ config ++ ". Enable all lint rules.")
    | none => Except.error ("Failed to read " ++ config ++ ". Enable all lint rules.")
  | none => Except.ok Config.default

/-- `generate_linter` (lines 264-284): same read/parse failure modes as
`generate_config`, but the absence of a path is itself an error. -/
def generate_linter (config : Option String)
    (read_to_string : String → Option String)
    (toml_from_str : String → Option LintConfig) : Except String Linter :=
  match config with
  | some config =>
    match read_to_string config with
    | some s =>
      match toml_from_str s with
      | some cfg => Except.ok (Linter.new cfg)
      | none => Except.error ("Failed to parse " ++ config ++ ". Enable all lint rules.")
    | none => Except.error ("Failed to read " ++ config ++ ". Enable all lint rules.")
  | none => Except.error ".svlint.toml is not found. Enable all lint rules."

/-- The `match generate_config(..)` of `initialize` (lines 140-146): any
configuration error is shown as a warning and replaced by the default
configuration. -/
def configOrDefault : Except String Config → Config
  | Except.ok c => c
  | Except.error _ => Config.default

/-- The `match generate_linter(..)` of `initialize` (lines 152-158): any
rule-settings error is shown as a warning and replaced by an
enable-all-rules linter. -/
def linterOrEnableAll : Except String Linter → Linter
  | Except.ok l => l
  | Except.error _ => Linter.new (LintConfig.enable_all LintConfig.new)

/-- `TextDocumentContentChangeEvent`: only the `text` field is read. -/
structure TextDocumentContentChangeEvent where
  text : List Nat
deriving DecidableEq

/-- The `text_document` of a didChange notification: URI and version. -/
structure VersionedTextDocumentIdentifier where
  uri : String
  version : Int
deriving DecidableEq

/-- `DidChangeTextDocumentParams`. -/
structure DidChangeTextDocumentParams where
  text_document : VersionedTextDocumentIdentifier
  content_changes : List TextDocumentContentChangeEvent
deriving DecidableEq

/-- One `publish_diagnostics` call: URI, diagnostic list, version. -/
structure PublishedDiagnostics where
  uri : String
  diags : List Diagnostic
  version : Option Int
deriving DecidableEq

/-- `did_change` (lines 215-225): lints `params.content_changes[0].text`
and publishes the result under the document's URI and version.  The Rust
index expression `content_changes[0]` panics when the list is empty; the
panic is modelled as `none` (no publication takes place). -/
def did_change (st : Backend)
    (parse_sv_str : List Nat → List String → List (String × Option Define) → ParseOutcome)
    (params : DidChangeTextDocumentParams) : Option PublishedDiagnostics :=
  match params.content_changes with
  | [] => none
  | c :: _ =>
    some ⟨params.text_document.uri, lint st parse_sv_str c.text,
      some params.text_document.version⟩

/-- Specification-side count of the line breaks strictly before offset `k`:
the number of offsets below `k` whose one-byte slice is `"\n"`. -/
def breaksBefore (s : List Nat) (k : Nat) : Nat :=
  ((List.range k).filter (fun p => sliceGet s p = some 10)).length

/-- Specification-side start offset of the line containing offset `k`: one
past the last line break strictly before `k`, or `0` when that line is the
first. -/
def lineStart (s : List Nat) : Nat → Nat
  | 0 => 0
  | k + 1 => if sliceGet s k = some 10 then k + 1 else lineStart s k

/-- Specification-side `line_end` on byte content: the smallest offset at
or after `pos` holding a line-break byte, or the length of the text if no
such offset exists. -/
def lineEndBytes (s : List Nat) (pos : Nat) : Nat :=
  match (List.range' pos (s.length - pos)).find? (fun p => s.getD p 0 = 10) with
  | some p => p
  | none => s.length

/-! ## Theorems -/

/-- The ancestor walk returns the first existing candidate, in order. -/
theorem searchAncestors_eq_find (ancestors : List String)
    (fsExists : String → Bool) (config : String) :
    searchAncestors ancestors fsExists config
      = (ancestors.find? (fun dir => fsExists (dir ++ "/" ++ config))).map
          (fun dir => dir ++ "/" ++ config) := by
  induction ancestors with
  | nil => rfl
  | cons d rest ih =>
    by_cases h : fsExists (d ++ "/" ++ config)
    · simp [searchAncestors, List.find?_cons_of_pos, h]
    · simp only [searchAncestors]
      rw [if_neg (by simp [h]), List.find?_cons_of_neg _ (by simp [h]), ih]

/-- C3: started from the current working directory's ancestor chain (the
start directory first, then each successive parent), `search_config`
returns the first candidate `<ancestor>/<filename>` that exists, and
returns none exactly when no ancestor contains the file. -/
theorem search_config_nearest_ancestor (ancestors : List String)
    (fsExists : String → Bool) (config : String) :
    search_config (some ancestors) fsExists config
      = (ancestors.find? (fun dir => fsExists (dir ++ "/" ++ config))).map
          (fun dir => dir ++ "/" ++ config)
    ∧ (search_config (some ancestors) fsExists config = none
        ↔ ∀ dir ∈ ancestors, fsExists (dir ++ "/" ++ config) = false) := by
  have h := searchAncestors_eq_find ancestors fsExists config
  constructor
  · exact h
  · show searchAncestors ancestors fsExists config = none ↔ _
    rw [h]
    simp [List.find?_eq_none]

/-- C4: with no path, `generate_config` returns the documented default
configuration (rule-checking enabled) and no error; with a path, an
unreadable file yields the read-failure error and a readable but
undeserializable file yields the parse-failure error, each naming the
offending path, while a successful parse returns the deserialized
configuration unchanged (never partially populated).  `generate_linter`
has the identical read/parse failure modes but a missing path is itself an
error; no failure is fatal: `initialize` substitutes the default
configuration, resp. an enable-all-rules linter, for any error. -/
theorem config_loading_modes (read_to_string : String → Option String)
    (parse_config : String → Option Config)
    (parse_lint : String → Option LintConfig) :
    (generate_config none read_to_string parse_config = Except.ok Config.default
      ∧ Config.default.option.linter = true)
    ∧ (∀ p, read_to_string p = none →
        generate_config (some p) read_to_string parse_config
          = Except.error ("Failed to read " ++ p ++ ". Enable all lint rules."))
    ∧ (∀ p s, read_to_string p = some s → parse_config s = none →
        generate_config (some p) read_to_string parse_config
          = Except.error ("Failed to parse " ++ p ++ ". Enable all lint rules."))
    ∧ (∀ p s c, read_to_string p = some s → parse_config s = some c →
        generate_config (some p) read_to_string parse_config = Except.ok c)
    ∧ (generate_linter none read_to_string parse_lint
        = Except.error ".svlint.toml is not found. Enable all lint rules.")
    ∧ (∀ p, read_to_string p = none →
        generate_linter (some p) read_to_string parse_lint
          = Except.error ("Failed to read " ++ p ++ ". Enable all lint rules."))
    ∧ (∀ p s, read_to_string p = some s → parse_lint s = none →
        generate_linter (some p) read_to_string parse_lint
          = Except.error ("Failed to parse " ++ p ++ ". Enable all lint rules."))
    ∧ (∀ p s c, read_to_string p = some s → parse_lint s = some c →
        generate_linter (some p) read_to_string parse_lint = Except.ok (Linter.new c))
    ∧ (∀ e, configOrDefault (Except.error e) = Config.default)
    ∧ (∀ e, linterOrEnableAll (Except.error e)
        = Linter.new (LintConfig.enable_all LintConfig.new)) := by
  refine ⟨⟨rfl, rfl⟩, ?_, ?_, ?_, rfl, ?_, ?_, ?_, fun e => rfl, fun e => rfl⟩
  · intro p hp; simp [generate_config, hp]
  · intro p s hp hs; simp [generate_config, hp, hs]
  · intro p s c hp hs; simp [generate_config, hp, hs]
  · intro p hp; simp [generate_linter, hp]
  · intro p s hp hs; simp [generate_linter, hp, hs]
  · intro p s c hp hs; simp [generate_linter, hp, hs]

/-- Witness for C4 at concrete inputs: an unreadable `.svls.toml` produces
the read-failure message naming it, and a missing `.svlint.toml` produces
the missing-file error. -/
theorem config_loading_modes_witness :
    generate_config (some ".svls.toml") (fun _ => none) (fun _ => none)
      = Except.error ("Failed to read " ++ ".svls.toml" ++ ". Enable all lint rules.")
    ∧ generate_linter none (fun _ => none) (fun _ => none)
      = Except.error ".svlint.toml is not found. Enable all lint rules." :=
  ⟨(config_loading_modes (fun _ => none) (fun _ => none) (fun _ => none)).2.1
      ".svls.toml" rfl,
    (config_loading_modes (fun _ => none) (fun _ => none) (fun _ => none)).2.2.2.2.1⟩

/-- C10: `did_change` reads `content_changes[0]` unconditionally: with a
non-empty change list it publishes the lint result of the first change's
text under the document's URI and version, and with an empty change list
the index expression panics (modelled as `none`) — no publication and no
empty diagnostic list is produced. -/
theorem did_change_first_change (st : Backend)
    (parse_sv_str : List Nat → List String → List (String × Option Define) → ParseOutcome) :
    (∀ uri version,
      did_change st parse_sv_str ⟨⟨uri, version⟩, []⟩ = none)
    ∧ (∀ uri version c rest,
      did_change st parse_sv_str ⟨⟨uri, version⟩, c :: rest⟩
        = some ⟨uri, lint st parse_sv_str c.text, some version⟩) :=
  ⟨fun _ _ => rfl, fun _ _ _ _ => rfl⟩

/-- A string without `=` is not split: the whole string is the left part
and there is no right part. -/
theorem splitnEq_of_not_mem (cs : List Char) (h : '=' ∉ cs) :
    splitnEq cs = (cs, none) := by
  induction cs with
  | nil => rfl
  | cons c rest ih =>
    have hc : ¬c = '=' := fun hc => h (hc ▸ List.mem_cons_self c rest)
    have hr : '=' ∉ rest := fun hr => h (List.mem_cons_of_mem c hr)
    simp [splitnEq, hc, ih hr]

/-- A string with an `=` is split at the first one: everything after it —
further `=` characters included — is the right part. -/
theorem splitnEq_append (n v : List Char) (h : '=' ∉ n) :
    splitnEq (n ++ '=' :: v) = (n, some v) := by
  induction n with
  | nil => simp [splitnEq]
  | cons c rest ih =>
    have hc : ¬c = '=' := fun hc => h (hc ▸ List.mem_cons_self c rest)
    have hr : '=' ∉ rest := fun hr => h (List.mem_cons_of_mem c hr)
    simp [splitnEq, hc, ih hr]

/-- C5: the macro-definition build splits each define string on the first
`=` only.  No `=` defines the whole string with no substitution text; with
`=`, the value is unescaped (the right part may itself contain `=`); an
empty right-hand side yields a defined empty-string value, distinct from no
value; an invalid escape sequence drops the value but keeps the identifier
defined — `defineOf` is total, so the pass never fails.  Concretely,
`NAME="a b"` keeps its quoted literal value and `NAME=\q` (invalid escape)
stays defined without a value. -/
theorem defineOf_split_first_eq :
    (∀ cs : List Char, '=' ∉ cs →
      defineOf (String.mk cs) = (String.mk cs, Define.new (String.mk cs) [] none))
    ∧ (∀ n v w : List Char, '=' ∉ n → unescape v = some w →
      defineOf (String.mk (n ++ '=' :: v))
        = (String.mk n,
            Define.new (String.mk n) [] (some (DefineText.new (String.mk w) none))))
    ∧ (∀ n v : List Char, '=' ∉ n → unescape v = none →
      defineOf (String.mk (n ++ '=' :: v))
        = (String.mk n, Define.new (String.mk n) [] none))
    ∧ (∀ n : List Char, '=' ∉ n →
      defineOf (String.mk (n ++ ['=']))
        = (String.mk n,
            Define.new (String.mk n) [] (some (DefineText.new "" none))))
    ∧ defineOf "NAME=\"a b\""
        = ("NAME", Define.new "NAME" [] (some (DefineText.new "\"a b\"" none)))
    ∧ defineOf "NAME=\\q" = ("NAME", Define.new "NAME" [] none) := by
  refine ⟨?_, ?_, ?_, ?_, by decide, by decide⟩
  · intro cs h
    simp [defineOf, splitnEq_of_not_mem cs h]
  · intro n v w hn hv
    simp [defineOf, splitnEq_append n v hn, hv]
  · intro n v hn hv
    simp [defineOf, splitnEq_append n v hn, hv]
  · intro n hn
    have : (n ++ ['=']) = n ++ '=' :: ([] : List Char) := rfl
    rw [this]
    simp [defineOf, splitnEq_append n [] hn, unescape]

/-- Witness for C5 at concrete inputs: `WIDTH=8` defines `WIDTH` with text
`8`, and `DEBUG` (no `=`) is defined without text. -/
theorem defineOf_split_first_eq_witness :
    defineOf (String.mk (['W', 'I', 'D', 'T', 'H'] ++ '=' :: ['8']))
      = (String.mk ['W', 'I', 'D', 'T', 'H'],
          Define.new (String.mk ['W', 'I', 'D', 'T', 'H']) []
            (some (DefineText.new (String.mk ['8']) none)))
    ∧ defineOf (String.mk ['D', 'E', 'B', 'U', 'G'])
      = (String.mk ['D', 'E', 'B', 'U', 'G'],
          Define.new (String.mk ['D', 'E', 'B', 'U', 'G']) [] none) :=
  ⟨defineOf_split_first_eq.2.1 ['W', 'I', 'D', 'T', 'H'] ['8'] ['8']
      (by decide) (by decide),
    defineOf_split_first_eq.1 ['D', 'E', 'B', 'U', 'G'] (by decide)⟩

/-- `lint` with a fixed collaborator outcome is `lintMatch` on that
outcome. -/
theorem lint_eq_lintMatch (st : Backend) (oc : ParseOutcome) (s : List Nat) :
    lint st (fun _ _ _ => oc) s = lintMatch st s oc := rfl

/-- Every diagnostic emitted by the rule-check loop comes from a failure of
the stream whose path is the primary buffer's empty path. -/
theorem mem_ruleDiags {s : List Nat} {fs : List Failed} {d : Diagnostic}
    (hd : d ∈ ruleDiags s fs) :
    ∃ f, f ∈ fs ∧ f.path = "" ∧ d = ruleDiag s f := by
  induction fs with
  | nil => simp [ruleDiags] at hd
  | cons f rest ih =>
    by_cases hp : f.path = ""
    · rw [ruleDiags, if_neg (by simp [hp])] at hd
      rcases List.mem_cons.mp hd with rfl | hd2
      · exact ⟨f, List.mem_cons_self f rest, hp, rfl⟩
      · obtain ⟨g, hg, hgp, hgd⟩ := ih hd2
        exact ⟨g, List.mem_cons_of_mem f hg, hgp, hgd⟩
    · rw [ruleDiags, if_pos (by simp [hp])] at hd
      obtain ⟨g, hg, hgp, hgd⟩ := ih hd
      exact ⟨g, List.mem_cons_of_mem f hg, hgp, hgd⟩

/-- C1: whatever the collaborator outcome, every diagnostic returned by
`lint` derives either from a rule violation whose path is the primary
buffer's empty path or from a parse failure located at the empty path;
failures attributed to any other path (included files) never contribute a
diagnostic. -/
theorem lint_primary_buffer_only (st : Backend) (oc : ParseOutcome)
    (s : List Nat) (d : Diagnostic)
    (hd : d ∈ lint st (fun _ _ _ => oc) s) :
    (∃ fs f, oc = ParseOutcome.ok fs ∧ f ∈ fs ∧ f.path = "" ∧ d = ruleDiag s f)
    ∨ (∃ pos, oc = ParseOutcome.err (SvParseError.parse (some ("", pos)))
        ∧ d = parseDiag s pos) := by
  rw [lint_eq_lintMatch] at hd
  cases oc with
  | ok fs =>
    left
    cases hl : st.linter with
    | none => rw [lintMatch, hl] at hd; simp at hd
    | some l =>
      rw [lintMatch, hl] at hd
      obtain ⟨f, hf, hp, hdf⟩ := mem_ruleDiags hd
      exact ⟨fs, f, rfl, hf, hp, hdf⟩
  | err e =>
    cases e with
    | parse loc =>
      match loc with
      | none =>
        have h2 : d ∈ ([] : List Diagnostic) := hd
        simp at h2
      | some (path, pos) =>
        have h2 : d ∈ (if path = "" then [parseDiag s pos] else []) := hd
        by_cases hpath : path = ""
        · rw [if_pos hpath] at h2
          rcases List.mem_singleton.mp h2 with rfl
          exact Or.inr ⟨pos, by rw [hpath], rfl⟩
        · rw [if_neg hpath] at h2; simp at h2
    | other =>
      have h2 : d ∈ ([] : List Diagnostic) := hd
      simp at h2

/-- Witness for C1: a pass whose stream holds one primary-buffer violation
and one violation in an included file surfaces (only) the former. -/
theorem lint_primary_buffer_only_witness :
    (∃ fs f,
        ParseOutcome.ok [⟨"", 0, 1, "r", "h"⟩, ⟨"inc.sv", 0, 1, "r2", "h2"⟩]
          = ParseOutcome.ok fs
        ∧ f ∈ fs ∧ f.path = ""
        ∧ ruleDiag [97] ⟨"", 0, 1, "r", "h"⟩ = ruleDiag [97] f)
    ∨ (∃ pos,
        ParseOutcome.ok [⟨"", 0, 1, "r", "h"⟩, ⟨"inc.sv", 0, 1, "r2", "h2"⟩]
          = ParseOutcome.err (SvParseError.parse (some ("", pos)))
        ∧ ruleDiag [97] ⟨"", 0, 1, "r", "h"⟩ = parseDiag [97] pos) :=
  lint_primary_buffer_only ⟨none, none, some (Linter.new LintConfig.new)⟩
    (ParseOutcome.ok [⟨"", 0, 1, "r", "h"⟩, ⟨"inc.sv", 0, 1, "r2", "h2"⟩]) [97]
    (ruleDiag [97] ⟨"", 0, 1, "r", "h"⟩) (by decide)

/-- C2 is false as stated: in the fully uninitialized state (no root, no
configuration, no linter) a document-changed event whose text fails to
parse at the primary buffer yields a non-empty diagnostic list — the code
runs the parser and reports the parse error even before `initialize`. -/
theorem uninitialized_lint_counterexample :
    lint ⟨none, none, none⟩
      (fun _ _ _ => ParseOutcome.err (SvParseError.parse (some ("", 0))))
      [109, 111] ≠ [] := by decide

/-- C2 (amended): while the server is uninitialized (`config` and `linter`
both unset) a document-changed event never fails and performs no rule
checking — the diagnostic list is empty whenever the parse collaborator
succeeds; the text is still parsed, however, and a parse failure located
at the primary buffer still yields the single parse-error diagnostic. -/
theorem uninitialized_lint_amended (st : Backend) (_hc : st.config = none)
    (hl : st.linter = none) (s : List Nat) :
    (∀ fs, lint st (fun _ _ _ => ParseOutcome.ok fs) s = [])
    ∧ (∀ e, lint st (fun _ _ _ => ParseOutcome.err e) s = []
        ∨ ∃ pos, e = SvParseError.parse (some ("", pos))
            ∧ lint st (fun _ _ _ => ParseOutcome.err e) s = [parseDiag s pos]) := by
  constructor
  · intro fs
    rw [lint_eq_lintMatch, lintMatch, hl]
  · intro e
    rw [lint_eq_lintMatch]
    cases e with
    | parse loc =>
      match loc with
      | none => exact Or.inl rfl
      | some (path, pos) =>
        by_cases hpath : path = ""
        · subst hpath
          exact Or.inr ⟨pos, rfl, by rw [lintMatch, if_pos rfl]⟩
        · exact Or.inl (by rw [lintMatch, if_neg hpath])
    | other => exact Or.inl rfl

/-- Witness for C2 (amended): in the uninitialized state a successfully
parsed text produces no diagnostics even when the (impossible, since no
linter ran) stream holds a violation. -/
theorem uninitialized_lint_amended_witness :
    lint ⟨none, none, none⟩
      (fun _ _ _ => ParseOutcome.ok [⟨"", 0, 1, "r", "h"⟩]) [97] = [] :=
  (uninitialized_lint_amended ⟨none, none, none⟩ rfl rfl [97]).1
    [⟨"", 0, 1, "r", "h"⟩]

/-- C7 is false as stated about the `source` field: the diagnostic produced
for a concrete primary-buffer rule violation carries the constant source
`"svls"`, not `"analysis-service"`. -/
theorem rule_violation_source_counterexample :
    (lint ⟨none, none, some (Linter.new LintConfig.new)⟩
        (fun _ _ _ => ParseOutcome.ok [⟨"", 0, 3, "rule_a", "hint a"⟩])
        [97, 98, 99]).map (fun d => d.source) = [some "svls"]
    ∧ (some "svls" : Option String) ≠ some "analysis-service" :=
  ⟨by decide, by decide⟩

/-- C7 (amended): a rule violation surfaced from the primary buffer yields
a diagnostic with Warning severity, the rule name as code, the hint text as
message, the constant source `"svls"`, and a single-line range starting at
the position of the begin offset whose end column is offset by the
length. -/
theorem rule_violation_diag (st : Backend) (s : List Nat) (f : Failed)
    (l : Linter) (hl : st.linter = some l) (hf : f.path = "") :
    lint st (fun _ _ _ => ParseOutcome.ok [f]) s
      = [{ range := ⟨⟨(get_position s f.beg).1, (get_position s f.beg).2⟩,
                     ⟨(get_position s f.beg).1, (get_position s f.beg).2 + f.len⟩⟩,
           severity := some DiagnosticSeverity.warning,
           code := some (NumberOrString.str f.name),
           source := some "svls",
           message := f.hint }] := by
  rw [lint_eq_lintMatch, lintMatch, hl, ruleDiags, if_neg (by simp [hf])]
  rfl

/-- Witness for C7 (amended) at a concrete violation on the second line of
a two-line text. -/
theorem rule_violation_diag_witness :
    lint ⟨none, none, some (Linter.new LintConfig.new)⟩
        (fun _ _ _ => ParseOutcome.ok [⟨"", 4, 2, "style_rule", "add space"⟩])
        [97, 98, 10, 99, 100, 101]
      = [{ range := ⟨⟨(get_position [97, 98, 10, 99, 100, 101] 4).1,
                      (get_position [97, 98, 10, 99, 100, 101] 4).2⟩,
                     ⟨(get_position [97, 98, 10, 99, 100, 101] 4).1,
                      (get_position [97, 98, 10, 99, 100, 101] 4).2 + 2⟩⟩,
           severity := some DiagnosticSeverity.warning,
           code := some (NumberOrString.str "style_rule"),
           source := some "svls",
           message := "add space" }] :=
  rule_violation_diag ⟨none, none, some (Linter.new LintConfig.new)⟩
    [97, 98, 10, 99, 100, 101] ⟨"", 4, 2, "style_rule", "add space"⟩
    (Linter.new LintConfig.new) rfl rfl

/-- Offset 0 is always a char boundary. -/
theorem isCharBoundary_zero (s : List Nat) : isCharBoundary s 0 = true := by
  simp [isCharBoundary]

/-- The total length is always a char boundary. -/
theorem isCharBoundary_len (s : List Nat) :
    isCharBoundary s s.length = true := by
  rw [isCharBoundary]
  split_ifs <;> first | rfl | omega

/-- A positive in-range offset is a char boundary iff its byte is not a
continuation byte. -/
theorem isCharBoundary_pos_lt {s : List Nat} {p : Nat} (h0 : 0 < p)
    (hlt : p < s.length) : isCharBoundary s p = !contB (s.getD p 0) := by
  rw [isCharBoundary, if_neg (by omega), if_neg (by omega), if_pos hlt]

/-- An offset past the end is never a char boundary. -/
theorem isCharBoundary_gt {s : List Nat} {p : Nat} (h : s.length < p) :
    isCharBoundary s p = false := by
  rw [isCharBoundary, if_neg (by omega), if_neg (by omega), if_neg (by omega)]

/-- The first byte of a valid UTF-8 sequence is never a continuation
byte. -/
theorem validUTF8_head_not_cont {s : List Nat} (h : ValidUTF8 s) (b : Nat)
    (t : List Nat) (he : s = b :: t) : contB b = false := by
  cases h with
  | nil => exact absurd he (by simp)
  | one hb _ =>
    injection he with h1 _
    subst h1
    simp [contB]
    omega
  | two hb1 hb2 _ _ =>
    injection he with h1 _
    subst h1
    simp [contB]
    omega
  | three hb1 hb2 _ _ _ =>
    injection he with h1 _
    subst h1
    simp [contB]
    omega
  | four hb1 hb2 _ _ _ _ =>
    injection he with h1 _
    subst h1
    simp [contB]
    omega

/-- Char boundaries inside a valid suffix are unaffected by the bytes in
front of it: the boundary test at `pre.length + q` in `pre ++ rest` agrees
with the test at `q` in `rest`. -/
theorem appendBoundary {rest : List Nat} (hrest : ValidUTF8 rest)
    (pre : List Nat) (q : Nat) :
    isCharBoundary (pre ++ rest) (pre.length + q) = isCharBoundary rest q := by
  have hlen : (pre ++ rest).length = pre.length + rest.length := by simp
  have hget : q < rest.length →
      (pre ++ rest).getD (pre.length + q) 0 = rest.getD q 0 := by
    intro _
    rw [List.getD_append_right pre rest 0 (pre.length + q) (by omega)]
    congr 1
    omega
  rcases Nat.lt_trichotomy q rest.length with hql | rfl | hqg
  · obtain ⟨r0, rt, rfl⟩ : ∃ r0 rt, rest = r0 :: rt := by
      cases rest with
      | nil => simp at hql
      | cons a b => exact ⟨a, b, rfl⟩
    have hr : (r0 :: rt).length = rt.length + 1 := by simp
    rcases Nat.eq_zero_or_pos q with rfl | hq0
    · rw [isCharBoundary_zero]
      rcases Nat.eq_zero_or_pos pre.length with hp0 | hp0
      · obtain rfl : pre = [] := List.length_eq_zero.mp hp0
        simpa using isCharBoundary_zero (r0 :: rt)
      · rw [isCharBoundary_pos_lt (by omega) (by omega), hget hql]
        have hcont := validUTF8_head_not_cont hrest r0 rt rfl
        simp [hcont]
    · rw [isCharBoundary_pos_lt (by omega) (by omega),
        isCharBoundary_pos_lt hq0 hql, hget hql]
  · rw [show pre.length + rest.length = (pre ++ rest).length from hlen.symm,
      isCharBoundary_len, isCharBoundary_len]
  · rw [isCharBoundary_gt (by omega), isCharBoundary_gt hqg]

/-- In valid UTF-8, a newline byte occupies a whole character: both its
offset and the following offset are char boundaries. -/
theorem lf_boundaries {s : List Nat} (hv : ValidUTF8 s) :
    ∀ p, p < s.length → s.getD p 0 = 10 →
      isCharBoundary s p = true ∧ isCharBoundary s (p + 1) = true := by
  induction hv with
  | nil => intro p hp _; simp at hp
  | @one b rest hb hrest ih =>
    intro p hp h10
    match p with
    | 0 =>
      have hA := appendBoundary hrest [b] 0
      have e1 : ([b] : List Nat) ++ rest = b :: rest := rfl
      have e2 : ([b] : List Nat).length + 0 = 0 + 1 := rfl
      rw [e1, e2] at hA
      exact ⟨isCharBoundary_zero (b :: rest), by rw [hA]; exact isCharBoundary_zero rest⟩
    | Nat.succ q =>
      have hq : q < rest.length := by simp at hp; omega
      have h10q : rest.getD q 0 = 10 := by
        simpa [List.getD_cons_succ] using h10
      obtain ⟨h1, h2⟩ := ih q hq h10q
      have hA1 := appendBoundary hrest [b] q
      have hA2 := appendBoundary hrest [b] (q + 1)
      have e1 : ([b] : List Nat) ++ rest = b :: rest := rfl
      have e2 : ([b] : List Nat).length + q = q + 1 := by
        show 1 + q = q + 1
        omega
      have e3 : ([b] : List Nat).length + (q + 1) = q + 1 + 1 := by
        show 1 + (q + 1) = q + 1 + 1
        omega
      rw [e1, e2] at hA1
      rw [e1, e3] at hA2
      show isCharBoundary (b :: rest) (q + 1) = true
        ∧ isCharBoundary (b :: rest) (q + 1 + 1) = true
      rw [hA1, hA2]
      exact ⟨h1, h2⟩
  | @two b c rest hb1 hb2 hc hrest ih =>
    intro p hp h10
    match p with
    | 0 =>
      exfalso
      have hb10 : b = 10 := by simpa using h10
      omega
    | 1 =>
      exfalso
      have hc10 : c = 10 := by simpa [List.getD_cons_succ] using h10
      simp [contB] at hc
      omega
    | Nat.succ (Nat.succ q) =>
      have hq : q < rest.length := by simp at hp; omega
      have h10q : rest.getD q 0 = 10 := by
        simpa [List.getD_cons_succ] using h10
      obtain ⟨h1, h2⟩ := ih q hq h10q
      have hA1 := appendBoundary hrest [b, c] q
      have hA2 := appendBoundary hrest [b, c] (q + 1)
      have e1 : ([b, c] : List Nat) ++ rest = b :: c :: rest := rfl
      have e2 : ([b, c] : List Nat).length + q = q + 2 := by
        show 2 + q = q + 2
        omega
      have e3 : ([b, c] : List Nat).length + (q + 1) = q + 2 + 1 := by
        show 2 + (q + 1) = q + 2 + 1
        omega
      rw [e1, e2] at hA1
      rw [e1, e3] at hA2
      show isCharBoundary (b :: c :: rest) (q + 2) = true
        ∧ isCharBoundary (b :: c :: rest) (q + 2 + 1) = true
      rw [hA1, hA2]
      exact ⟨h1, h2⟩
  | @three b c d rest hb1 hb2 hc hd hrest ih =>
    intro p hp h10
    match p with
    | 0 =>
      exfalso
      have hb10 : b = 10 := by simpa using h10
      omega
    | 1 =>
      exfalso
      have hc10 : c = 10 := by simpa [List.getD_cons_succ] using h10
      simp [contB] at hc
      omega
    | 2 =>
      exfalso
      have hd10 : d = 10 := by simpa [List.getD_cons_succ] using h10
      simp [contB] at hd
      omega
    | Nat.succ (Nat.succ (Nat.succ q)) =>
      have hq : q < rest.length := by simp at hp; omega
      have h10q : rest.getD q 0 = 10 := by
        simpa [List.getD_cons_succ] using h10
      obtain ⟨h1, h2⟩ := ih q hq h10q
      have hA1 := appendBoundary hrest [b, c, d] q
      have hA2 := appendBoundary hrest [b, c, d] (q + 1)
      have e1 : ([b, c, d] : List Nat) ++ rest = b :: c :: d :: rest := rfl
      have e2 : ([b, c, d] : List Nat).length + q = q + 3 := by
        show 3 + q = q + 3
        omega
      have e3 : ([b, c, d] : List Nat).length + (q + 1) = q + 3 + 1 := by
        show 3 + (q + 1) = q + 3 + 1
        omega
      rw [e1, e2] at hA1
      rw [e1, e3] at hA2
      show isCharBoundary (b :: c :: d :: rest) (q + 3) = true
        ∧ isCharBoundary (b :: c :: d :: rest) (q + 3 + 1) = true
      rw [hA1, hA2]
      exact ⟨h1, h2⟩
  | @four b c d e rest hb1 hb2 hc hd he hrest ih =>
    intro p hp h10
    match p with
    | 0 =>
      exfalso
      have hb10 : b = 10 := by simpa using h10
      omega
    | 1 =>
      exfalso
      have hc10 : c = 10 := by simpa [List.getD_cons_succ] using h10
      simp [contB] at hc
      omega
    | 2 =>
      exfalso
      have hd10 : d = 10 := by simpa [List.getD_cons_succ] using h10
      simp [contB] at hd
      omega
    | 3 =>
      exfalso
      have he10 : e = 10 := by simpa [List.getD_cons_succ] using h10
      simp [contB] at he
      omega
    | Nat.succ (Nat.succ (Nat.succ (Nat.succ q))) =>
      have hq : q < rest.length := by simp at hp; omega
      have h10q : rest.getD q 0 = 10 := by
        simpa [List.getD_cons_succ] using h10
      obtain ⟨h1, h2⟩ := ih q hq h10q
      have hA1 := appendBoundary hrest [b, c, d, e] q
      have hA2 := appendBoundary hrest [b, c, d, e] (q + 1)
      have e1 : ([b, c, d, e] : List Nat) ++ rest = b :: c :: d :: e :: rest := rfl
      have e2 : ([b, c, d, e] : List Nat).length + q = q + 4 := by
        show 4 + q = q + 4
        omega
      have e3 : ([b, c, d, e] : List Nat).length + (q + 1) = q + 4 + 1 := by
        show 4 + (q + 1) = q + 4 + 1
        omega
      rw [e1, e2] at hA1
      rw [e1, e3] at hA2
      show isCharBoundary (b :: c :: d :: e :: rest) (q + 4) = true
        ∧ isCharBoundary (b :: c :: d :: e :: rest) (q + 4 + 1) = true
      rw [hA1, hA2]
      exact ⟨h1, h2⟩

/-- On valid UTF-8, the code's slice test for a line break holds exactly at
the in-range offsets holding a newline byte. -/
theorem sliceGet_lf_iff {s : List Nat} (hv : ValidUTF8 s) (p : Nat) :
    sliceGet s p = some 10 ↔ p < s.length ∧ s.getD p 0 = 10 := by
  constructor
  · intro h
    rw [sliceGet] at h
    split_ifs at h with hcond
    simp only [Bool.and_eq_true, decide_eq_true_eq] at hcond
    exact ⟨by omega, by simpa using h⟩
  · rintro ⟨hlt, h10⟩
    obtain ⟨h1, h2⟩ := lf_boundaries hv p hlt h10
    have hcond : (decide (p + 1 ≤ s.length) && isCharBoundary s p
        && isCharBoundary s (p + 1)) = true := by
      rw [h1, h2]
      simp only [Bool.and_true]
      exact decide_eq_true (by omega)
    rw [sliceGet, if_pos hcond, h10]

/-- The start of the current line never exceeds the scanned offset. -/
theorem lineStart_le (s : List Nat) (k : Nat) : lineStart s k ≤ k := by
  induction k with
  | zero => exact le_rfl
  | succ k ih =>
    simp only [lineStart]
    split_ifs
    · exact le_rfl
    · omega

/-- One scan step of `get_position`: a line break advances the line and
resets the column, anything else advances the column. -/
theorem get_position_succ (s : List Nat) (k : Nat) :
    get_position s (k + 1)
      = if sliceGet s k = some 10 then ((get_position s k).1 + 1, 0)
        else ((get_position s k).1, (get_position s k).2 + 1) := by
  by_cases h : sliceGet s k = some 10
  · rw [if_pos h]
    simp only [get_position, h]
  · rw [if_neg h]
    simp only [get_position]
    split
    · rename_i heq
      exact absurd heq h
    · rfl
    · rfl

/-- Counting line breaks below `k + 1` adds one exactly when offset `k` is
a line break. -/
theorem breaksBefore_succ (s : List Nat) (k : Nat) :
    breaksBefore s (k + 1)
      = breaksBefore s k + (if sliceGet s k = some 10 then 1 else 0) := by
  unfold breaksBefore
  rw [List.range_succ, List.filter_append, List.length_append]
  by_cases h : sliceGet s k = some 10 <;> simp [h]

/-- `get_position` computes the break count and the distance from the line
start. -/
theorem get_position_eq (s : List Nat) (k : Nat) :
    get_position s k = (breaksBefore s k, k - lineStart s k) := by
  induction k with
  | zero => rfl
  | succ k ih =>
    have hls := lineStart_le s k
    have hl : lineStart s (k + 1)
        = if sliceGet s k = some 10 then k + 1 else lineStart s k := rfl
    rw [get_position_succ, ih, breaksBefore_succ, hl]
    by_cases h : sliceGet s k = some 10
    · rw [if_pos h, if_pos h, if_pos h]
      simp only [Prod.mk.injEq]
      exact ⟨trivial, by omega⟩
    · rw [if_neg h, if_neg h, if_neg h]
      simp only [Prod.mk.injEq]
      exact ⟨by omega, by omega⟩

/-- C8: for every text and offset, `get_position` returns exactly the pair
(number of line breaks strictly before the offset, distance from the start
of the current line) computed by the scan; on valid UTF-8 the returned line
is the count of in-range newline bytes strictly before the offset; and an
offset whose one-byte slice lookup fails (not a valid char boundary)
advances the column by one unit instead of failing. -/
theorem get_position_line_col (s : List Nat) (k : Nat) :
    get_position s k = (breaksBefore s k, k - lineStart s k)
    ∧ (ValidUTF8 s →
        (get_position s k).1
          = ((List.range k).filter
              (fun p => decide (p < s.length) && decide (s.getD p 0 = 10))).length)
    ∧ (∀ p, sliceGet s p = none →
        get_position s (p + 1) = ((get_position s p).1, (get_position s p).2 + 1)) := by
  refine ⟨get_position_eq s k, ?_, ?_⟩
  · intro hv
    rw [get_position_eq s k]
    show breaksBefore s k = _
    unfold breaksBefore
    rw [List.filter_congr (fun p _ => ?_)]
    rw [← Bool.decide_and]
    exact decide_eq_decide.mpr (sliceGet_lf_iff hv p)
  · intro p hp
    rw [get_position_succ, if_neg (by simp [hp])]

/-- Witness for C8 on the text `"a\nα"` (bytes `[97, 10, 206, 177]`): the
line of offset 3 counts the single newline byte before it, and offset 3
(inside the two-byte character) has no one-byte slice yet advances the
column by one. -/
theorem get_position_line_col_witness :
    (get_position [97, 10, 206, 177] 3).1
      = ((List.range 3).filter
          (fun p => decide (p < ([97, 10, 206, 177] : List Nat).length)
            && decide (([97, 10, 206, 177] : List Nat).getD p 0 = 10))).length
    ∧ get_position [97, 10, 206, 177] (3 + 1)
      = ((get_position [97, 10, 206, 177] 3).1,
          (get_position [97, 10, 206, 177] 3).2 + 1) :=
  ⟨(get_position_line_col [97, 10, 206, 177] 3).2.1
      (ValidUTF8.one (by decide)
        (ValidUTF8.one (by decide)
          (ValidUTF8.two (by decide) (by decide) (by decide) ValidUTF8.nil))),
    (get_position_line_col [97, 10, 206, 177] 3).2.2 3 (by decide)⟩

/-- `List.find?` only depends on the predicate's values on the list. -/
theorem findCongr {p q : Nat → Bool} :
    ∀ l : List Nat, (∀ x ∈ l, p x = q x) → List.find? p l = List.find? q l := by
  intro l
  induction l with
  | nil => intro _; rfl
  | cons a t ih =>
    intro h
    rw [List.find?_cons, List.find?_cons, h a (List.mem_cons_self a t),
      ih (fun x hx => h x (List.mem_cons_of_mem a hx))]

/-- The line-end loop returns the first offset in its scan range whose
one-byte slice is a line break, or the end of the text. -/
theorem lineEndLoop_find (s : List Nat) :
    ∀ n pos, s.length - pos = n → pos ≤ s.length →
      lineEndLoop s pos n
        = (match (List.range' pos n).find? (fun p => sliceGet s p = some 10) with
          | some p => p
          | none => s.length) := by
  intro n
  induction n with
  | zero =>
    intro pos h hle
    simp only [lineEndLoop, List.range', List.find?_nil]
    omega
  | succ n ih =>
    intro pos h hle
    rw [List.range'_succ]
    by_cases hlf : sliceGet s pos = some 10
    · rw [show lineEndLoop s pos (n + 1)
            = if sliceGet s pos = some 10 then pos else lineEndLoop s (pos + 1) n
          from rfl,
        if_pos hlf, List.find?_cons_of_pos _ (by simp [hlf])]
    · rw [show lineEndLoop s pos (n + 1)
            = if sliceGet s pos = some 10 then pos else lineEndLoop s (pos + 1) n
          from rfl,
        if_neg hlf, List.find?_cons_of_neg _ (by simp [hlf]),
        ih (pos + 1) (by omega) (by omega)]

/-- On valid UTF-8 and in-range offsets, `get_line_end` computes the
byte-level line-end specification: the smallest offset at or after `pos`
holding a newline byte, or the text length. -/
theorem get_line_end_eq_lineEndBytes {s : List Nat} (hv : ValidUTF8 s)
    {pos : Nat} (hpos : pos ≤ s.length) :
    get_line_end s pos = lineEndBytes s pos := by
  rw [get_line_end, lineEndLoop_find s (s.length - pos) pos rfl hpos]
  unfold lineEndBytes
  have hcong : ∀ p ∈ List.range' pos (s.length - pos),
      (decide (sliceGet s p = some 10)) = (decide (s.getD p 0 = 10)) := by
    intro p hp
    have hmem := List.mem_range'_1.mp hp
    have hplt : p < s.length := by omega
    apply decide_eq_decide.mpr
    rw [sliceGet_lf_iff hv p]
    exact ⟨fun h => h.2, fun h => ⟨hplt, h⟩⟩
  rw [findCongr (List.range' pos (s.length - pos)) hcong]

/-- C6: a parse failure located in the primary buffer at start offset `pos`
produces exactly one diagnostic with severity Error, no code, and the
constant message "parse error", whose range starts at the (line, column)
of `pos` and ends on the same line at column + (line_end - pos), where
line_end is the smallest offset at or after `pos` that is a line break, or
the length of the text if none exists. -/
theorem parse_error_diag (st : Backend) (s : List Nat) (pos : Nat)
    (hv : ValidUTF8 s) (hpos : pos ≤ s.length) :
    lint st (fun _ _ _ => ParseOutcome.err (SvParseError.parse (some ("", pos)))) s
      = [{ range := ⟨⟨(get_position s pos).1, (get_position s pos).2⟩,
                     ⟨(get_position s pos).1,
                      (get_position s pos).2 + (lineEndBytes s pos - pos)⟩⟩,
           severity := some DiagnosticSeverity.error,
           code := none,
           source := some "svls",
           message := "parse error" }] := by
  rw [lint_eq_lintMatch, lintMatch, if_pos rfl]
  simp only [parseDiag, Diagnostic.new]
  rw [get_line_end_eq_lineEndBytes hv hpos]

/-- Witness for C6 on the unterminated one-line text `"mod("` (bytes
`[109, 111, 100, 40]`) with the failure at offset 0. -/
theorem parse_error_diag_witness :
    lint ⟨none, none, none⟩
        (fun _ _ _ => ParseOutcome.err (SvParseError.parse (some ("", 0))))
        [109, 111, 100, 40]
      = [{ range := ⟨⟨(get_position [109, 111, 100, 40] 0).1,
                      (get_position [109, 111, 100, 40] 0).2⟩,
                     ⟨(get_position [109, 111, 100, 40] 0).1,
                      (get_position [109, 111, 100, 40] 0).2
                        + (lineEndBytes [109, 111, 100, 40] 0 - 0)⟩⟩,
           severity := some DiagnosticSeverity.error,
           code := none,
           source := some "svls",
           message := "parse error" }] :=
  parse_error_diag ⟨none, none, none⟩ [109, 111, 100, 40] 0
    (ValidUTF8.one (by decide) (ValidUTF8.one (by decide)
      (ValidUTF8.one (by decide) (ValidUTF8.one (by decide) ValidUTF8.nil))))
    (by decide)
